/-
Verification of the ray-tracer core (raytracer.py / opticalelements.py) against
its specification.

Modelling conventions (shallow embedding over exact real arithmetic):
* a numpy 3-vector of finite floats is a `Vec3 := ℝ × ℝ × ℝ`;
* a value that the Python/numpy code turns into NaN or ±inf (sqrt of a
  negative, division by zero, arcsin outside [-1,1], normalisation of the
  zero vector) is modelled as `none` in an `Option`.  IEEE comparisons with
  NaN are all false, which is what makes the code's branches below faithful:
  a NaN candidate never passes a `<=` validity test, a NaN sine never passes
  the `>` TIR test.
* refractive indices are assumed nonzero (the spec requires `n1, n2 > 0`),
  so the plain real division `n1 / n2` is exact.
-/
import Mathlib

open scoped Classical

/-- 3-component real vector, standing for a numpy array of 3 floats. -/
abbrev Vec3 : Type := ℝ × ℝ × ℝ

/-- `np.dot` of two 3-vectors. -/
def dot3 (a b : Vec3) : ℝ := a.1 * b.1 + a.2.1 * b.2.1 + a.2.2 * b.2.2

/-- `np.cross` of two 3-vectors. -/
def cross3 (a b : Vec3) : Vec3 :=
  (a.2.1 * b.2.2 - a.2.2 * b.2.1,
   a.2.2 * b.1 - a.1 * b.2.2,
   a.1 * b.2.1 - a.2.1 * b.1)

/-- componentwise sum of two 3-vectors (`np.add`). -/
def add3 (a b : Vec3) : Vec3 := (a.1 + b.1, a.2.1 + b.2.1, a.2.2 + b.2.2)

/-- componentwise difference of two 3-vectors (`np.subtract`). -/
def sub3 (a b : Vec3) : Vec3 := (a.1 - b.1, a.2.1 - b.2.1, a.2.2 - b.2.2)

/-- scalar times 3-vector. -/
def smul3 (c : ℝ) (v : Vec3) : Vec3 := (c * v.1, c * v.2.1, c * v.2.2)

/-- sum of squared components. -/
def sumsq (v : Vec3) : ℝ := v.1 ^ 2 + v.2.1 ^ 2 + v.2.2 ^ 2

/-- `np.linalg.norm` of a 3-vector. -/
noncomputable def norm3 (v : Vec3) : ℝ := Real.sqrt (sumsq v)

/-- `np.sqrt`: NaN (modelled `none`) on negative input. -/
noncomputable def npSqrt (x : ℝ) : Option ℝ :=
  if x < 0 then none else some (Real.sqrt x)

/-- float division: division by zero gives inf or NaN, never a real
(modelled `none`). -/
noncomputable def npDiv (a b : ℝ) : Option ℝ :=
  if b = 0 then none else some (a / b)

/-- `np.arcsin`: NaN (modelled `none`) outside `[-1, 1]`. -/
noncomputable def npArcsin (x : ℝ) : Option ℝ :=
  if 1 < |x| then none else some (Real.arcsin x)

/-- `normalise_vector` (opticalelements.py): `vector / np.linalg.norm(vector)`.
For the zero vector the norm is 0 and `0/0` is NaN, modelled `none`.
(The 3-element length check of the Python code is enforced by the `Vec3`
type.)  `Ray.__init__` and `Ray.append` divide by the norm inline with
identical semantics, so they reuse this definition. -/
noncomputable def normalise_vector (v : Vec3) : Option Vec3 :=
  if norm3 v = 0 then none else some (smul3 (norm3 v)⁻¹ v)

/-- 3×3 real matrix as its three rows. -/
abbrev Mat3 : Type := Vec3 × Vec3 × Vec3

/-- `np.identity(3)`. -/
def identity_matrix : Mat3 := ((1, 0, 0), (0, 1, 0), (0, 0, 1))

/-- `np.outer(a, b)`: row `i` is `a i • b`. -/
def outer3 (a b : Vec3) : Mat3 := (smul3 a.1 b, smul3 a.2.1 b, smul3 a.2.2 b)

/-- `np.cross(unit_axis, identity_matrix * -1)`: numpy broadcasts the cross
product over the rows `-e₁, -e₂, -e₃` of the negated identity, producing the
skew-symmetric cross-product matrix of `unit_axis`. -/
def cross_prod_matrix (a : Vec3) : Mat3 :=
  (cross3 a (-1, 0, 0), cross3 a (0, -1, 0), cross3 a (0, 0, -1))

/-- componentwise sum of two matrices. -/
def madd (m n : Mat3) : Mat3 := (add3 m.1 n.1, add3 m.2.1 n.2.1, add3 m.2.2 n.2.2)

/-- scalar times matrix. -/
def msmul (c : ℝ) (m : Mat3) : Mat3 := (smul3 c m.1, smul3 c m.2.1, smul3 c m.2.2)

/-- `np.dot(matrix, vector)`. -/
def matVec (m : Mat3) (v : Vec3) : Vec3 := (dot3 m.1 v, dot3 m.2.1 v, dot3 m.2.2 v)

/-- `rotation_matrix` (opticalelements.py): Rodrigues' formula
`cosθ·I + sinθ·[axis]ₓ + (1−cosθ)·(axis⊗axis)`. -/
noncomputable def rotation_matrix (theta : ℝ) (unit_axis : Vec3) : Mat3 :=
  madd (madd (msmul (Real.cos theta) identity_matrix)
             (msmul (Real.sin theta) (cross_prod_matrix unit_axis)))
       (msmul (1 - Real.cos theta) (outer3 unit_axis unit_axis))

/-- `Ray` (raytracer.py): current position, current direction, history of
positions, terminated flag.  `none` in `pos`/`dir`/`allpos` stands for a
NaN-contaminated numpy array. -/
structure Ray : Type where
  pos : Option Vec3
  dir : Option Vec3
  allpos : List (Option Vec3)
  terminated : Bool

/-- `Ray.__init__(point, direction)`: stores the point raw, stores
`direction / np.linalg.norm(direction)`, starts the history at the point,
clears the terminated flag. -/
noncomputable def Ray.ofPointDir (point direction : Vec3) : Ray :=
  { pos := some point
    dir := normalise_vector direction
    allpos := [some point]
    terminated := false }

/-- `Ray.p()`. -/
def Ray.p (r : Ray) : Option Vec3 := r.pos

/-- `Ray.k()`. -/
def Ray.k (r : Ray) : Option Vec3 := r.dir

/-- `Ray.append(new_p, new_k)`: sets the position to `new_p` raw, the
direction to `new_k / np.linalg.norm(new_k)`, and extends the history with
`new_p`.  It does not look at the terminated flag. -/
noncomputable def Ray.append (r : Ray) (new_p new_k : Option Vec3) : Ray :=
  { pos := new_p
    dir := new_k.bind normalise_vector
    allpos := r.allpos ++ [new_p]
    terminated := r.terminated }

/-- `Ray.vertices()`. -/
def Ray.vertices (r : Ray) : List (Option Vec3) := r.allpos

/-- `Ray.terminate()`. -/
def Ray.terminate (r : Ray) : Ray := { r with terminated := true }

/-- `Ray.is_terminated()`. -/
def Ray.is_terminated (r : Ray) : Bool := r.terminated

/-- Result of `SphericalRefraction.snell`:
* `tir` — the Python code returns `None` (its "total internal reflection"
  signal);
* `nan` — `np.arcsin` was called outside `[-1, 1]` (or on NaN input), so the
  returned direction array is all NaN;
* `refr d` — a real refracted direction `d` was returned. -/
inductive SnellResult : Type where
  | tir : SnellResult
  | nan : SnellResult
  | refr : Vec3 → SnellResult

/-- Outcome of `propagate_ray` on a refracting element: either the
`NoInterceptError` exception was raised, or the ray's vertex list was
returned. -/
inductive PropOutcome : Type where
  | raisedNoIntercept : PropOutcome
  | points : List (Option Vec3) → PropOutcome

/-- `SphericalRefraction.__init__(z0, curve, n1, n2, rad)` configuration.
`radius = 1/curve` and `centre = (0,0,z0+radius)` are derived below
(`np.infty` for zero curvature — see `SphericalRefraction.intercept`). -/
structure SphericalRefraction : Type where
  z0 : ℝ
  curve : ℝ
  n1 : ℝ
  n2 : ℝ
  rad : ℝ

/-- the derived `self.__centre`: `(0,0,z0)` when flat, else `(0,0,z0+1/curve)`. -/
noncomputable def SphericalRefraction.centre (s : SphericalRefraction) : Vec3 :=
  if s.curve = 0 then (0, 0, s.z0) else (0, 0, s.z0 + 1 / s.curve)

/-- `snell(incident_dir, surface_normal)` with refractive indices `n1, n2`
(`n2 ≠ 0`; the spec requires both indices positive).  Follows the source:
`sinθᵢ = np.sqrt(1 - (incident·normal)²)`; if `sinθᵢ > n1/n2` return the TIR
signal; else rotate the surface normal by `-arcsin(sinθᵢ·n1/n2)` about the
unit axis of `incident × normal` (axis `(0,0,1)` when that cross product is
zero).  NaN input or an out-of-range arcsin argument yields a NaN direction
(`SnellResult.nan`): every IEEE comparison with NaN is false, so NaN falls
through the TIR test and poisons the rotation matrix. -/
noncomputable def snellCore (n1 n2 : ℝ) (incident_dir surface_normal : Option Vec3) :
    SnellResult :=
  match incident_dir, surface_normal with
  | some i, some n =>
    let dot_incident_normal := dot3 i n
    let cross_incident_normal := cross3 i n
    let unit_axis : Vec3 :=
      if norm3 cross_incident_normal = 0 then (0, 0, 1)
      else smul3 (norm3 cross_incident_normal)⁻¹ cross_incident_normal
    match npSqrt (1 - dot_incident_normal ^ 2) with
    | none => SnellResult.nan
    | some sin_theta_i =>
      if sin_theta_i > n1 / n2 then SnellResult.tir
      else
        match npArcsin (sin_theta_i * n1 / n2) with
        | none => SnellResult.nan
        | some theta_r =>
            SnellResult.refr (matVec (rotation_matrix (-theta_r) unit_axis) n)
  | _, _ => SnellResult.nan

/-- `SphericalRefraction.snell` uses the element's own indices. -/
noncomputable def SphericalRefraction.snell (s : SphericalRefraction)
    (incident_dir surface_normal : Option Vec3) : SnellResult :=
  snellCore s.n1 s.n2 incident_dir surface_normal

/-- `SphericalRefraction.intercept(ray)`.  With `r = ray.p() - centre` and
`rk = r · ray.k()`, the candidate path lengths are
`-rk ± np.sqrt(rk² - (‖r‖² - radius²))`; the two candidate points are tried
in that order and the first one with `x²+y² ≤ rad²` and
`z0 ≤ z ≤ centre_z` is returned, else `None`.
Faithfulness notes:
* a negative discriminant makes `np.sqrt` NaN, both candidates NaN, and both
  validity tests false — modelled by returning `none` at `npSqrt`;
* a NaN ray position or direction likewise fails every validity test;
* zero curvature sets `radius = np.infty`, making every candidate component
  NaN or ±inf, and the `z0 ≤ z ≤ centre_z` bracket (with `centre_z = z0`)
  false for both candidates, so the flat-curvature element always returns
  `None` for a real ray. -/
noncomputable def SphericalRefraction.intercept (s : SphericalRefraction) (ray : Ray) :
    Option Vec3 :=
  if s.curve = 0 then none
  else
    match ray.p, ray.k with
    | some ray_p, some ray_k_unit =>
      let rad := 1 / s.curve
      let centre := s.centre
      let centre_to_ray := sub3 ray_p centre
      let r_dot_k := dot3 centre_to_ray ray_k_unit
      let abs_centre_to_ray := norm3 centre_to_ray
      match npSqrt (r_dot_k ^ 2 - (abs_centre_to_ray ^ 2 - rad ^ 2)) with
      | none => none
      | some root =>
        let intercept_one := add3 ray_p (smul3 (-r_dot_k + root) ray_k_unit)
        let intercept_two := add3 ray_p (smul3 (-r_dot_k - root) ray_k_unit)
        if intercept_one.1 ^ 2 + intercept_one.2.1 ^ 2 ≤ s.rad ^ 2 ∧
            s.z0 ≤ intercept_one.2.2 ∧ intercept_one.2.2 ≤ centre.2.2 then
          some intercept_one
        else if intercept_two.1 ^ 2 + intercept_two.2.1 ^ 2 ≤ s.rad ^ 2 ∧
            s.z0 ≤ intercept_two.2.2 ∧ intercept_two.2.2 ≤ centre.2.2 then
          some intercept_two
        else none
    | _, _ => none

/-- `SphericalRefraction.propagate_ray(ray)`: no intercept terminates the ray
and raises `NoInterceptError`; a TIR signal from `snell` terminates the ray
and appends the intercept with the unrefracted incoming direction; otherwise
the intercept and the (possibly NaN) refracted direction are appended.  The
updated ray is returned along with the outcome.  Note: the terminated flag is
never consulted. -/
noncomputable def SphericalRefraction.propagate_ray (s : SphericalRefraction) (ray : Ray) :
    Ray × PropOutcome :=
  match s.intercept ray with
  | none => (ray.terminate, PropOutcome.raisedNoIntercept)
  | some intercept_point =>
    let intercept_to_centre := sub3 s.centre intercept_point
    let unit_inter_to_centre := normalise_vector intercept_to_centre
    match s.snell ray.k unit_inter_to_centre with
    | SnellResult.tir =>
        let r1 := ray.terminate
        let r2 := r1.append (some intercept_point) r1.k
        (r2, PropOutcome.points r2.vertices)
    | SnellResult.nan =>
        let r2 := ray.append (some intercept_point) none
        (r2, PropOutcome.points r2.vertices)
    | SnellResult.refr new_k =>
        let r2 := ray.append (some intercept_point) (some new_k)
        (r2, PropOutcome.points r2.vertices)

/-- `OutputPlane.__init__(z0)` configuration. -/
structure OutputPlane : Type where
  z0 : ℝ

/-- `OutputPlane.intercept(ray)`: `n = (z0 - ray.p()[2]) / ray.k()[2]`, then
`ray.p() + n * ray.k()` — unconditionally, with no aperture or z-range test.
The division is unguarded: a zero direction z-component gives inf or NaN,
so the returned point is not real (modelled `none`), as is any NaN input. -/
noncomputable def OutputPlane.intercept (o : OutputPlane) (ray : Ray) : Option Vec3 :=
  match ray.p, ray.k with
  | some ray_pos, some ray_k =>
    match npDiv (o.z0 - ray_pos.2.2) ray_k.2.2 with
    | none => none
    | some n => some (add3 ray_pos (smul3 n ray_k))
  | _, _ => none

/-- `OutputPlane.propagate_ray(ray)`: terminated rays are returned unchanged;
otherwise the plane intercept is appended with the ray's own direction. -/
noncomputable def OutputPlane.propagate_ray (o : OutputPlane) (ray : Ray) : Ray :=
  if ray.is_terminated then ray
  else ray.append (o.intercept ray) ray.k

/-- Modelled from the spec: `PlaneRefraction` is instantiated by `main.py`
(`elems.PlaneRefraction(15, 1.5168, 1, 40)`) but its class definition is not
among the repository's source files.  Spec §4.4: a flat refracting interface
at `z0` with indices `n1, n2` and aperture radius `rad` (argument order as in
the `main.py` calls). -/
structure PlaneRefraction : Type where
  z0 : ℝ
  n1 : ℝ
  n2 : ℝ
  rad : ℝ

/-- Modelled from the spec: `PlaneRefraction.intercept` — "intercept is the
solution of `(z0 − position_z)/direction_z = L`, validity requires the
resulting lateral radius ≤ apertureRadius".  A vertical direction makes the
division non-real, and a NaN ray has no valid intercept. -/
noncomputable def PlaneRefraction.intercept (pl : PlaneRefraction) (ray : Ray) :
    Option Vec3 :=
  match ray.p, ray.k with
  | some ray_pos, some ray_k =>
    match npDiv (pl.z0 - ray_pos.2.2) ray_k.2.2 with
    | none => none
    | some L =>
      let i := add3 ray_pos (smul3 L ray_k)
      if i.1 ^ 2 + i.2.1 ^ 2 ≤ pl.rad ^ 2 then some i else none
  | _, _ => none

/-- Modelled from the spec: the `PlaneRefraction` surface normal is "the
fixed axis vector `(0,0,1)` (or its negation depending on propagation
direction)" — the inward normal along the propagation sense. -/
noncomputable def PlaneRefraction.surfaceNormal (_pl : PlaneRefraction) (ray : Ray) :
    Option Vec3 :=
  match ray.k with
  | some k => if 0 ≤ k.2.2 then some ((0 : ℝ), 0, 1) else some ((0 : ℝ), 0, -1)
  | none => none

/-- Modelled from the spec: `PlaneRefraction.propagate_ray` has "identical
control flow to SphericalRefraction" — no intercept terminates and raises;
TIR terminates and appends the unrefracted direction; otherwise the intercept
and refracted direction are appended.  "Refraction uses the same Snell's-law
procedure." -/
noncomputable def PlaneRefraction.propagate_ray (pl : PlaneRefraction) (ray : Ray) :
    Ray × PropOutcome :=
  match pl.intercept ray with
  | none => (ray.terminate, PropOutcome.raisedNoIntercept)
  | some intercept_point =>
    match snellCore pl.n1 pl.n2 ray.k (pl.surfaceNormal ray) with
    | SnellResult.tir =>
        let r1 := ray.terminate
        let r2 := r1.append (some intercept_point) r1.k
        (r2, PropOutcome.points r2.vertices)
    | SnellResult.nan =>
        let r2 := ray.append (some intercept_point) none
        (r2, PropOutcome.points r2.vertices)
    | SnellResult.refr new_k =>
        let r2 := ray.append (some intercept_point) (some new_k)
        (r2, PropOutcome.points r2.vertices)

/-- `np.linspace(a, b, n)`: `n` evenly spaced samples from `a` to `b`
inclusive.  (For `n = 1` numpy returns `[a]`; here `(b-a)*0/0 = 0` gives the
same value.) -/
noncomputable def linspace (a b : ℝ) (n : ℕ) : List ℝ :=
  (List.range n).map (fun i : ℕ => a + (b - a) * (i : ℝ) / ((n : ℝ) - 1))

/-- `make_bundle(max_rad)` (raytracer.py): ring `a` (0-based) has radius
`spread_range[a]` and `rings[a] = 6·(a+1)` sample angles from
`np.linspace(0, 2π, rings[a])`; a central axial ray is appended last. -/
noncomputable def make_bundle (max_rad : ℕ) : List Ray :=
  let spread := max_rad
  let integers := List.range' 1 spread
  let rings := integers.map (fun a => 6 * a)
  let spread_range := (linspace 0 (spread : ℝ) (spread + 1)).drop 1
  let ringRays :=
    (List.range spread_range.length).flatMap (fun a =>
      let sp := spread_range.getD a 0
      let ring := rings.getD a 0
      let angles := linspace 0 (Real.pi * 2) ring
      angles.map (fun b =>
        Ray.ofPointDir (sp * Real.cos b, sp * Real.sin b, 0) (0, 0, 1)))
  ringRays ++ [Ray.ofPointDir (0, 0, 0) (0, 0, 1)]

/-- The claim's description of `SphericalRefraction.intercept`: with
`rvec = position − centre`, `rk = rvec · direction` and discriminant
`rk² − (‖rvec‖² − radius²)`, return the first of the two candidates
`I₁ = position + (−rk + √disc)·direction`, `I₂ = position + (−rk − √disc)·direction`
satisfying `x² + y² ≤ apertureRadius²` and `z0 ≤ I_z ≤ centre_z`; return
`None` when the discriminant is negative or neither candidate is valid. -/
noncomputable def intercept_claim (s : SphericalRefraction) (r : Ray) : Option Vec3 :=
  match r.p, r.k with
  | some p, some k =>
    let radius := 1 / s.curve
    let rvec := sub3 p s.centre
    let rk := dot3 rvec k
    let disc := rk ^ 2 - (sumsq rvec - radius ^ 2)
    if disc < 0 then none
    else
      let i1 := add3 p (smul3 (-rk + Real.sqrt disc) k)
      let i2 := add3 p (smul3 (-rk - Real.sqrt disc) k)
      if i1.1 ^ 2 + i1.2.1 ^ 2 ≤ s.rad ^ 2 ∧ s.z0 ≤ i1.2.2 ∧ i1.2.2 ≤ s.centre.2.2 then
        some i1
      else if i2.1 ^ 2 + i2.2.1 ^ 2 ≤ s.rad ^ 2 ∧ s.z0 ≤ i2.2.2 ∧ i2.2.2 ≤ s.centre.2.2 then
        some i2
      else none
  | _, _ => none

lemma sumsq_nonneg (v : Vec3) : 0 ≤ sumsq v := by
  unfold sumsq; positivity

lemma norm3_nonneg (v : Vec3) : 0 ≤ norm3 v := Real.sqrt_nonneg _

lemma sq_norm3 (v : Vec3) : norm3 v ^ 2 = sumsq v :=
  Real.sq_sqrt (sumsq_nonneg v)

lemma sqrt_eq_of_sq {a b : ℝ} (ha : 0 ≤ a) (h : a ^ 2 = b) : Real.sqrt b = a := by
  rw [← h, Real.sqrt_sq ha]

lemma norm3_eq {v : Vec3} {a : ℝ} (ha : 0 ≤ a) (h : sumsq v = a ^ 2) : norm3 v = a := by
  rw [norm3, h, Real.sqrt_sq ha]

lemma sumsq_eq_zero_iff (v : Vec3) : sumsq v = 0 ↔ v = ((0 : ℝ), (0 : ℝ), (0 : ℝ)) := by
  obtain ⟨x, y, z⟩ := v
  unfold sumsq
  constructor
  · intro h
    have hx : x = 0 := by nlinarith [sq_nonneg x, sq_nonneg y, sq_nonneg z]
    have hy : y = 0 := by nlinarith [sq_nonneg x, sq_nonneg y, sq_nonneg z]
    have hz : z = 0 := by nlinarith [sq_nonneg x, sq_nonneg y, sq_nonneg z]
    simp [hx, hy, hz]
  · intro h
    simp only [Prod.ext_iff] at h
    obtain ⟨rfl, rfl, rfl⟩ := h
    norm_num

lemma norm3_eq_zero_iff (v : Vec3) : norm3 v = 0 ↔ v = ((0 : ℝ), (0 : ℝ), (0 : ℝ)) := by
  rw [norm3, Real.sqrt_eq_zero (sumsq_nonneg v), sumsq_eq_zero_iff]

lemma smul3_one (v : Vec3) : smul3 1 v = v := by
  obtain ⟨x, y, z⟩ := v; simp [smul3]

lemma sumsq_smul3 (c : ℝ) (v : Vec3) : sumsq (smul3 c v) = c ^ 2 * sumsq v := by
  obtain ⟨x, y, z⟩ := v; simp [smul3, sumsq]; ring

lemma norm3_smul3 (c : ℝ) (v : Vec3) : norm3 (smul3 c v) = |c| * norm3 v := by
  rw [norm3, sumsq_smul3, Real.sqrt_mul (sq_nonneg c), Real.sqrt_sq_eq_abs, norm3]

lemma normalise_vector_of_unit {v : Vec3} (h : norm3 v = 1) :
    normalise_vector v = some v := by
  rw [normalise_vector, if_neg (by rw [h]; norm_num), h, inv_one, smul3_one]

lemma normalise_vector_unit {v : Vec3} (h : v ≠ ((0 : ℝ), (0 : ℝ), (0 : ℝ))) :
    ∃ u, normalise_vector v = some u ∧ norm3 u = 1 := by
  have hn : norm3 v ≠ 0 := fun h0 => h ((norm3_eq_zero_iff v).mp h0)
  have hpos : 0 < norm3 v := lt_of_le_of_ne (norm3_nonneg v) (Ne.symm hn)
  refine ⟨smul3 (norm3 v)⁻¹ v, ?_, ?_⟩
  · rw [normalise_vector, if_neg hn]
  · rw [norm3_smul3, abs_of_pos (by positivity), inv_mul_cancel₀ hn]

lemma intercept_eq_claim_shape (s : SphericalRefraction) (r : Ray) (hc : s.curve ≠ 0) :
    s.intercept r = intercept_claim s r := by
  rw [SphericalRefraction.intercept, intercept_claim, if_neg hc]
  cases hp : r.p with
  | none => rfl
  | some p =>
    cases hk : r.k with
    | none => rfl
    | some k =>
      simp only
      rw [npSqrt, sq_norm3]
      by_cases hd :
          dot3 (sub3 p s.centre) k ^ 2 - (sumsq (sub3 p s.centre) - (1 / s.curve) ^ 2) < 0
      · rw [if_pos hd, if_pos hd]
      · rw [if_neg hd, if_neg hd]

lemma ofPointDir_eval {p d : Vec3} (h : norm3 d = 1) :
    Ray.ofPointDir p d = Ray.mk (some p) (some d) [some p] false := by
  rw [Ray.ofPointDir, normalise_vector_of_unit h]

lemma norm3_001 : norm3 ((0 : ℝ), (0 : ℝ), (1 : ℝ)) = 1 :=
  norm3_eq (by norm_num) (by unfold sumsq; norm_num)

lemma intercept_claim_eval (s : SphericalRefraction) {r : Ray} {p k : Vec3}
    (hp : r.p = some p) (hk : r.k = some k) :
    intercept_claim s r =
      (let rk := dot3 (sub3 p s.centre) k
       let disc := rk ^ 2 - (sumsq (sub3 p s.centre) - (1 / s.curve) ^ 2)
       if disc < 0 then none
       else
         let i1 := add3 p (smul3 (-rk + Real.sqrt disc) k)
         let i2 := add3 p (smul3 (-rk - Real.sqrt disc) k)
         if i1.1 ^ 2 + i1.2.1 ^ 2 ≤ s.rad ^ 2 ∧ s.z0 ≤ i1.2.2 ∧ i1.2.2 ≤ s.centre.2.2
         then some i1
         else if i2.1 ^ 2 + i2.2.1 ^ 2 ≤ s.rad ^ 2 ∧ s.z0 ≤ i2.2.2 ∧ i2.2.2 ≤ s.centre.2.2
         then some i2
         else none) := by
  rw [intercept_claim, hp, hk]

lemma snellCore_eval (n1 n2 : ℝ) (i n : Vec3) :
    snellCore n1 n2 (some i) (some n) =
      (let d := dot3 i n
       let c := cross3 i n
       let axis : Vec3 :=
         if norm3 c = 0 then ((0 : ℝ), 0, 1) else smul3 (norm3 c)⁻¹ c
       if 1 - d ^ 2 < 0 then SnellResult.nan
       else if Real.sqrt (1 - d ^ 2) > n1 / n2 then SnellResult.tir
       else if 1 < |Real.sqrt (1 - d ^ 2) * n1 / n2| then SnellResult.nan
       else
         SnellResult.refr
           (matVec
             (rotation_matrix (-Real.arcsin (Real.sqrt (1 - d ^ 2) * n1 / n2)) axis)
             n)) := by
  rw [snellCore, npSqrt]
  by_cases h1 : 1 - dot3 i n ^ 2 < 0
  · simp [h1]
  · simp only [if_neg h1]
    by_cases h2 : Real.sqrt (1 - dot3 i n ^ 2) > n1 / n2
    · simp [h2]
    · simp only [if_neg h2]
      rw [npArcsin]
      by_cases h3 : 1 < |Real.sqrt (1 - dot3 i n ^ 2) * n1 / n2|
      · simp [h3]
      · simp [h3]

/-- C4: for every ray, `SphericalRefraction.intercept` returns the first
candidate in the fixed evaluation order (`I₁ = position + (−rk + √disc)·direction`,
then `I₂ = position + (−rk − √disc)·direction`) that satisfies both
`x² + y² ≤ apertureRadius²` and `z0 ≤ I_z ≤ centre_z`, and returns no
intercept when the discriminant `rk² − (‖r‖² − radius²)` is negative or when
neither candidate is valid — stated as equality of the code's intercept with
`intercept_claim`, the claim's description, for genuinely spherical elements
(`curvature ≠ 0`; zero curvature has no real `radius`). -/
theorem C4_intercept_first_valid (s : SphericalRefraction) (r : Ray)
    (hc : s.curve ≠ 0) : s.intercept r = intercept_claim s r :=
  intercept_eq_claim_shape s r hc

/-- C4 witness: a concrete element (`z0 = 10`, `curvature = 1/10`,
aperture 10) and an axial ray; both sides evaluate to the near intercept
`(0, 0, 10)` (the far candidate `(0, 0, 30)` fails `z ≤ centre_z = 20`). -/
theorem C4_intercept_first_valid_witness :
    ((SphericalRefraction.mk 10 (1/10) 1 (3/2) 10).curve ≠ 0) ∧
    (SphericalRefraction.mk 10 (1/10) 1 (3/2) 10).intercept
        (Ray.ofPointDir (0, 0, 0) (0, 0, 1)) =
      intercept_claim (SphericalRefraction.mk 10 (1/10) 1 (3/2) 10)
        (Ray.ofPointDir (0, 0, 0) (0, 0, 1)) ∧
    intercept_claim (SphericalRefraction.mk 10 (1/10) 1 (3/2) 10)
        (Ray.ofPointDir (0, 0, 0) (0, 0, 1)) = some ((0 : ℝ), 0, 10) := by
  refine ⟨by norm_num, C4_intercept_first_valid _ _ (by norm_num), ?_⟩
  have hr := ofPointDir_eval (p := ((0 : ℝ), 0, 0)) norm3_001
  have hcen : (SphericalRefraction.mk 10 (1/10) 1 (3/2) 10).centre = ((0 : ℝ), 0, 20) := by
    rw [SphericalRefraction.centre, if_neg (by norm_num)]; norm_num
  have hp : (Ray.ofPointDir ((0 : ℝ), 0, 0) ((0 : ℝ), 0, 1)).p = some ((0 : ℝ), 0, 0) := by
    rw [hr]; rfl
  have hk : (Ray.ofPointDir ((0 : ℝ), 0, 0) ((0 : ℝ), 0, 1)).k = some ((0 : ℝ), 0, 1) := by
    rw [hr]; rfl
  rw [intercept_claim_eval _ hp hk, hcen]
  simp only [sub3, dot3, sumsq, smul3, add3]
  norm_num
  rw [show Real.sqrt 100 = 10 from sqrt_eq_of_sq (by norm_num) (by norm_num)]
  norm_num

/-- C5: for every ray whose trajectory has no valid intercept with a
`SphericalRefraction` surface, `propagate_ray` marks the ray terminated and
signals `NoIntercept` (raises `NoInterceptError`), and leaves the ray's
position, direction, and vertex history unchanged. -/
theorem C5_no_intercept_local (s : SphericalRefraction) (r : Ray)
    (h : s.intercept r = none) :
    (s.propagate_ray r).1.pos = r.pos ∧
    (s.propagate_ray r).1.dir = r.dir ∧
    (s.propagate_ray r).1.allpos = r.allpos ∧
    (s.propagate_ray r).1.terminated = true ∧
    (s.propagate_ray r).2 = PropOutcome.raisedNoIntercept := by
  rw [SphericalRefraction.propagate_ray, h]
  exact ⟨rfl, rfl, rfl, rfl, rfl⟩

/-- C5 witness: a ray starting far off axis at `(0, 50, 0)` misses the
concrete element (discriminant `400 − (2900 − 100) = −2400 < 0`), so
`propagate_ray` terminates it, raises, and leaves its state unchanged. -/
theorem C5_no_intercept_local_witness :
    (SphericalRefraction.mk 10 (1/10) 1 (3/2) 10).intercept
        (Ray.ofPointDir (0, 50, 0) (0, 0, 1)) = none ∧
    ((SphericalRefraction.mk 10 (1/10) 1 (3/2) 10).propagate_ray
        (Ray.ofPointDir (0, 50, 0) (0, 0, 1))).1.allpos =
      (Ray.ofPointDir ((0 : ℝ), 50, 0) ((0 : ℝ), 0, 1)).allpos ∧
    ((SphericalRefraction.mk 10 (1/10) 1 (3/2) 10).propagate_ray
        (Ray.ofPointDir (0, 50, 0) (0, 0, 1))).2 = PropOutcome.raisedNoIntercept := by
  have hr := ofPointDir_eval (p := ((0 : ℝ), 50, 0)) norm3_001
  have hcen : (SphericalRefraction.mk 10 (1/10) 1 (3/2) 10).centre = ((0 : ℝ), 0, 20) := by
    rw [SphericalRefraction.centre, if_neg (by norm_num)]; norm_num
  have hp : (Ray.ofPointDir ((0 : ℝ), 50, 0) ((0 : ℝ), 0, 1)).p = some ((0 : ℝ), 50, 0) := by
    rw [hr]; rfl
  have hk : (Ray.ofPointDir ((0 : ℝ), 50, 0) ((0 : ℝ), 0, 1)).k = some ((0 : ℝ), 0, 1) := by
    rw [hr]; rfl
  have hnone : (SphericalRefraction.mk 10 (1/10) 1 (3/2) 10).intercept
      (Ray.ofPointDir (0, 50, 0) (0, 0, 1)) = none := by
    rw [intercept_eq_claim_shape _ _ (by norm_num),
      intercept_claim_eval _ hp hk, hcen]
    simp only [sub3, dot3, sumsq, smul3, add3]
    norm_num
  have hmain := C5_no_intercept_local _ _ hnone
  exact ⟨hnone, hmain.2.2.1, hmain.2.2.2.2⟩

/-- C2: for every ray whose refraction at a `SphericalRefraction` surface is
total internal reflection (`snell` signals no refraction), `propagate_ray`
marks the ray terminated, appends the intercept point paired with the ray's
unrefracted incoming direction, and never raises an exception (the outcome is
the returned vertex list, not `NoInterceptError`). -/
theorem C2_tir_terminate_append (s : SphericalRefraction) (r : Ray) (ip k : Vec3)
    (hd : r.dir = some k) (hu : norm3 k = 1)
    (hi : s.intercept r = some ip)
    (ht : s.snell r.k (normalise_vector (sub3 s.centre ip)) = SnellResult.tir) :
    (s.propagate_ray r).1.terminated = true ∧
    (s.propagate_ray r).1.pos = some ip ∧
    (s.propagate_ray r).1.dir = some k ∧
    (s.propagate_ray r).1.allpos = r.allpos ++ [some ip] ∧
    (s.propagate_ray r).2 = PropOutcome.points (r.allpos ++ [some ip]) := by
  have ht' : s.snell (some k) (normalise_vector (sub3 s.centre ip)) = SnellResult.tir := by
    rw [show (some k : Option Vec3) = r.dir from hd.symm]
    exact ht
  simp only [SphericalRefraction.propagate_ray, hi, Ray.append, Ray.terminate,
    Ray.k, Ray.vertices, ht', hd, Option.some_bind, normalise_vector_of_unit hu]
  simp [normalise_vector_of_unit hu]

/-- C2 witness: element `z0 = 10`, `curvature = 1/10`, `n1 = 1`, `n2 = 2`,
aperture 10; the axial-direction ray from `(0, -8, 0)` meets the sphere at
`(0, -8, 14)` with `sinθᵢ = 4/5` exceeding the code's TIR threshold
`n1/n2 = 1/2`, so `propagate_ray` terminates it, appends the intercept with
the incoming direction `(0, 0, 1)`, and returns the vertex list. -/
theorem C2_tir_terminate_append_witness :
    (Ray.ofPointDir ((0 : ℝ), -8, 0) ((0 : ℝ), 0, 1)).dir = some ((0 : ℝ), 0, 1) ∧
    norm3 ((0 : ℝ), 0, 1) = 1 ∧
    (SphericalRefraction.mk 10 (1/10) 1 2 10).intercept
        (Ray.ofPointDir (0, -8, 0) (0, 0, 1)) = some ((0 : ℝ), -8, 14) ∧
    (SphericalRefraction.mk 10 (1/10) 1 2 10).snell
        (Ray.ofPointDir ((0 : ℝ), -8, 0) ((0 : ℝ), 0, 1)).k
        (normalise_vector
          (sub3 (SphericalRefraction.mk 10 (1/10) 1 2 10).centre ((0 : ℝ), -8, 14))) =
      SnellResult.tir ∧
    ((SphericalRefraction.mk 10 (1/10) 1 2 10).propagate_ray
        (Ray.ofPointDir (0, -8, 0) (0, 0, 1))).1.terminated = true ∧
    ((SphericalRefraction.mk 10 (1/10) 1 2 10).propagate_ray
        (Ray.ofPointDir (0, -8, 0) (0, 0, 1))).1.allpos =
      (Ray.ofPointDir ((0 : ℝ), -8, 0) ((0 : ℝ), 0, 1)).allpos ++ [some ((0 : ℝ), -8, 14)] ∧
    ((SphericalRefraction.mk 10 (1/10) 1 2 10).propagate_ray
        (Ray.ofPointDir (0, -8, 0) (0, 0, 1))).2 =
      PropOutcome.points
        ((Ray.ofPointDir ((0 : ℝ), -8, 0) ((0 : ℝ), 0, 1)).allpos ++ [some ((0 : ℝ), -8, 14)]) := by
  have hr := ofPointDir_eval (p := ((0 : ℝ), -8, 0)) norm3_001
  have hd : (Ray.ofPointDir ((0 : ℝ), -8, 0) ((0 : ℝ), 0, 1)).dir = some ((0 : ℝ), 0, 1) := by
    rw [hr]
  have hp : (Ray.ofPointDir ((0 : ℝ), -8, 0) ((0 : ℝ), 0, 1)).p = some ((0 : ℝ), -8, 0) := by
    rw [hr]; rfl
  have hk : (Ray.ofPointDir ((0 : ℝ), -8, 0) ((0 : ℝ), 0, 1)).k = some ((0 : ℝ), 0, 1) := by
    rw [hr]; rfl
  have hcen : (SphericalRefraction.mk 10 (1/10) 1 2 10).centre = ((0 : ℝ), 0, 20) := by
    rw [SphericalRefraction.centre, if_neg (by norm_num)]; norm_num
  have hi : (SphericalRefraction.mk 10 (1/10) 1 2 10).intercept
      (Ray.ofPointDir (0, -8, 0) (0, 0, 1)) = some ((0 : ℝ), -8, 14) := by
    rw [intercept_eq_claim_shape _ _ (by norm_num), intercept_claim_eval _ hp hk, hcen]
    simp only [sub3, dot3, sumsq, smul3, add3]
    norm_num
    rw [show Real.sqrt 36 = 6 from sqrt_eq_of_sq (by norm_num) (by norm_num)]
    norm_num
  have hsub : sub3 ((0 : ℝ), 0, 20) ((0 : ℝ), -8, 14) = ((0 : ℝ), 8, 6) := by
    simp [sub3]; norm_num
  have hnormv : normalise_vector ((0 : ℝ), 8, 6) = some ((0 : ℝ), 4/5, 3/5) := by
    have h10 : norm3 ((0 : ℝ), 8, 6) = 10 := norm3_eq (by norm_num) (by unfold sumsq; norm_num)
    rw [normalise_vector, h10, if_neg (by norm_num)]
    simp [smul3]
    norm_num
  have ht : (SphericalRefraction.mk 10 (1/10) 1 2 10).snell
      (Ray.ofPointDir ((0 : ℝ), -8, 0) ((0 : ℝ), 0, 1)).k
      (normalise_vector
        (sub3 (SphericalRefraction.mk 10 (1/10) 1 2 10).centre ((0 : ℝ), -8, 14))) =
      SnellResult.tir := by
    rw [hk, hcen, hsub, hnormv, SphericalRefraction.snell, snellCore_eval]
    simp only [dot3, cross3]
    norm_num
    intro hcontra
    rw [show Real.sqrt 16 = 4 from sqrt_eq_of_sq (by norm_num) (by norm_num),
      show Real.sqrt 25 = 5 from sqrt_eq_of_sq (by norm_num) (by norm_num)] at hcontra
    norm_num at hcontra
  have hmain := C2_tir_terminate_append _ _ _ _ hd norm3_001 hi ht
  exact ⟨hd, norm3_001, hi, ht, hmain.1, hmain.2.2.2.1, hmain.2.2.2.2⟩

lemma npDiv_ne {b : ℝ} (a : ℝ) (hb : b ≠ 0) : npDiv a b = some (a / b) := by
  unfold npDiv; rw [if_neg hb]

lemma npDiv_eq_zero {b : ℝ} (a : ℝ) (hb : b = 0) : npDiv a b = none := by
  unfold npDiv; rw [if_pos hb]

lemma output_intercept_eval (o : OutputPlane) {r : Ray} {p k : Vec3}
    (hp : r.p = some p) (hk : r.k = some k) (hz : k.2.2 ≠ 0) :
    o.intercept r = some (add3 p (smul3 ((o.z0 - p.2.2) / k.2.2) k)) := by
  rw [OutputPlane.intercept, hp, hk]
  simp only [npDiv_ne _ hz]

lemma output_intercept_none (o : OutputPlane) {r : Ray} {p k : Vec3}
    (hp : r.p = some p) (hk : r.k = some k) (hz : k.2.2 = 0) :
    o.intercept r = none := by
  rw [OutputPlane.intercept, hp, hk]
  simp only [npDiv_eq_zero _ hz]

/-- C7: for every non-terminated ray with nonzero direction z-component,
`OutputPlane.propagate_ray` appends exactly
`position + ((z0 − position_z)/direction_z)·direction` with the ray's
direction unchanged; the statement quantifies over arbitrary positions and
directions with no aperture or z-range hypothesis, reflecting that the
intercept is returned unconditionally. -/
theorem C7_output_plane_append (o : OutputPlane) (r : Ray) (p k : Vec3)
    (hterm : r.terminated = false) (hp : r.pos = some p) (hk : r.dir = some k)
    (hz : k.2.2 ≠ 0) (hu : norm3 k = 1) :
    (o.propagate_ray r).pos = some (add3 p (smul3 ((o.z0 - p.2.2) / k.2.2) k)) ∧
    (o.propagate_ray r).dir = some k ∧
    (o.propagate_ray r).allpos =
      r.allpos ++ [some (add3 p (smul3 ((o.z0 - p.2.2) / k.2.2) k))] ∧
    (o.propagate_ray r).terminated = false := by
  have hp' : r.p = some p := hp
  have hk' : r.k = some k := hk
  have hint := output_intercept_eval o hp' hk' hz
  simp [OutputPlane.propagate_ray, Ray.is_terminated, hterm, hint, Ray.append,
    Ray.k, hk, normalise_vector_of_unit hu]

/-- C7 witness: the plane at `z0 = 200` moves the off-axis axial ray from
`(0, 7, 0)` to `(0, 7, 200)` (far outside any aperture) with direction
`(0, 0, 1)` unchanged. -/
theorem C7_output_plane_append_witness :
    ((Ray.ofPointDir ((0 : ℝ), 7, 0) ((0 : ℝ), 0, 1)).terminated = false ∧
     (Ray.ofPointDir ((0 : ℝ), 7, 0) ((0 : ℝ), 0, 1)).pos = some ((0 : ℝ), 7, 0) ∧
     (Ray.ofPointDir ((0 : ℝ), 7, 0) ((0 : ℝ), 0, 1)).dir = some ((0 : ℝ), 0, 1) ∧
     (((0 : ℝ), 0, 1) : Vec3).2.2 ≠ 0) ∧
    ((OutputPlane.mk 200).propagate_ray (Ray.ofPointDir (0, 7, 0) (0, 0, 1))).pos =
      some (add3 ((0 : ℝ), 7, 0)
        (smul3 (((OutputPlane.mk 200).z0 - (((0 : ℝ), 7, 0) : Vec3).2.2) /
          ((((0 : ℝ), 0, 1) : Vec3).2.2)) ((0 : ℝ), 0, 1))) ∧
    ((OutputPlane.mk 200).propagate_ray (Ray.ofPointDir (0, 7, 0) (0, 0, 1))).dir =
      some ((0 : ℝ), 0, 1) := by
  have hr := ofPointDir_eval (p := ((0 : ℝ), 7, 0)) norm3_001
  have hterm : (Ray.ofPointDir ((0 : ℝ), 7, 0) ((0 : ℝ), 0, 1)).terminated = false := by
    rw [hr]
  have hp : (Ray.ofPointDir ((0 : ℝ), 7, 0) ((0 : ℝ), 0, 1)).pos = some ((0 : ℝ), 7, 0) := by
    rw [hr]
  have hk : (Ray.ofPointDir ((0 : ℝ), 7, 0) ((0 : ℝ), 0, 1)).dir = some ((0 : ℝ), 0, 1) := by
    rw [hr]
  have hmain := C7_output_plane_append (OutputPlane.mk 200) _ _ _ hterm hp hk
    (by norm_num) norm3_001
  exact ⟨⟨hterm, hp, hk, by norm_num⟩, hmain.1, hmain.2.1⟩

/-- C10: `OutputPlane.intercept` divides by the direction's z-component with
no guard: with real position and direction, it produces a real point exactly
when `direction_z ≠ 0`; a ray perpendicular to the optical axis
(`direction_z = 0`) hits the unguarded division at the public
`propagate_ray` interface, which then appends the non-real (inf/NaN) point
as the ray's new position. -/
theorem C10_output_plane_div_by_zero (o : OutputPlane) (r : Ray) (p k : Vec3)
    (hp : r.pos = some p) (hk : r.dir = some k) :
    ((∃ q, o.intercept r = some q) ↔ k.2.2 ≠ 0) ∧
    (k.2.2 = 0 → r.terminated = false →
      (o.propagate_ray r).pos = none ∧
      (o.propagate_ray r).allpos = r.allpos ++ [none]) := by
  have hp' : r.p = some p := hp
  have hk' : r.k = some k := hk
  constructor
  · constructor
    · rintro ⟨q, hq⟩ hz0
      rw [output_intercept_none o hp' hk' hz0] at hq
      exact Option.noConfusion hq
    · intro hz0
      exact ⟨add3 p (smul3 ((o.z0 - p.2.2) / k.2.2) k), output_intercept_eval o hp' hk' hz0⟩
  · intro hz0 hterm
    have hnone := output_intercept_none o hp' hk' hz0
    simp [OutputPlane.propagate_ray, Ray.is_terminated, hterm, hnone, Ray.append]

/-- C10 witness: the ray from the origin travelling along `(1, 0, 0)` —
perpendicular to the optical axis — gets no real intercept with the plane at
`z0 = 5`, and `propagate_ray` records the non-real position. -/
theorem C10_output_plane_div_by_zero_witness :
    ((Ray.ofPointDir ((0 : ℝ), 0, 0) ((1 : ℝ), 0, 0)).pos = some ((0 : ℝ), 0, 0) ∧
     (Ray.ofPointDir ((0 : ℝ), 0, 0) ((1 : ℝ), 0, 0)).dir = some ((1 : ℝ), 0, 0)) ∧
    ¬(∃ q, (OutputPlane.mk 5).intercept
        (Ray.ofPointDir ((0 : ℝ), 0, 0) ((1 : ℝ), 0, 0)) = some q) ∧
    ((OutputPlane.mk 5).propagate_ray
        (Ray.ofPointDir ((0 : ℝ), 0, 0) ((1 : ℝ), 0, 0))).pos = none := by
  have h100 : norm3 ((1 : ℝ), 0, 0) = 1 := norm3_eq (by norm_num) (by unfold sumsq; norm_num)
  have hr := ofPointDir_eval (p := ((0 : ℝ), 0, 0)) h100
  have hp : (Ray.ofPointDir ((0 : ℝ), 0, 0) ((1 : ℝ), 0, 0)).pos = some ((0 : ℝ), 0, 0) := by
    rw [hr]
  have hk : (Ray.ofPointDir ((0 : ℝ), 0, 0) ((1 : ℝ), 0, 0)).dir = some ((1 : ℝ), 0, 0) := by
    rw [hr]
  have hterm : (Ray.ofPointDir ((0 : ℝ), 0, 0) ((1 : ℝ), 0, 0)).terminated = false := by
    rw [hr]
  have hmain := C10_output_plane_div_by_zero (OutputPlane.mk 5) _ _ _ hp hk
  refine ⟨⟨hp, hk⟩, ?_, (hmain.2 rfl hterm).1⟩
  intro hex
  exact (hmain.1.mp hex) rfl

/-- C8: for every nonzero direction argument, the stored direction is a unit
vector (in exact real arithmetic) immediately after construction and after
every call to `append`, because both operations divide the supplied
direction by its norm. -/
theorem C8_direction_normalised :
    (∀ p v : Vec3, v ≠ ((0 : ℝ), 0, 0) →
      ∃ u, (Ray.ofPointDir p v).dir = some u ∧ norm3 u = 1) ∧
    (∀ (r : Ray) (q : Option Vec3) (w : Vec3), w ≠ ((0 : ℝ), 0, 0) →
      ∃ u, (r.append q (some w)).dir = some u ∧ norm3 u = 1) := by
  constructor
  · intro p v hv
    obtain ⟨u, hu1, hu2⟩ := normalise_vector_unit hv
    exact ⟨u, hu1, hu2⟩
  · intro r q w hw
    obtain ⟨u, hu1, hu2⟩ := normalise_vector_unit hw
    exact ⟨u, hu1, hu2⟩

/-- C8 witness: construction with direction `(0, 0, 2)` and a subsequent
`append` with direction `(3, 0, 4)` both store unit directions. -/
theorem C8_direction_normalised_witness :
    ((((0 : ℝ), 0, 2) : Vec3) ≠ ((0 : ℝ), 0, 0) ∧
      ∃ u, (Ray.ofPointDir ((1 : ℝ), 2, 3) ((0 : ℝ), 0, 2)).dir = some u ∧ norm3 u = 1) ∧
    ((((3 : ℝ), 0, 4) : Vec3) ≠ ((0 : ℝ), 0, 0) ∧
      ∃ u, ((Ray.ofPointDir ((1 : ℝ), 2, 3) ((0 : ℝ), 0, 2)).append
          (some ((5 : ℝ), 5, 5)) (some ((3 : ℝ), 0, 4))).dir = some u ∧ norm3 u = 1) := by
  have h1 : (((0 : ℝ), 0, 2) : Vec3) ≠ ((0 : ℝ), 0, 0) := by simp
  have h2 : (((3 : ℝ), 0, 4) : Vec3) ≠ ((0 : ℝ), 0, 0) := by simp
  exact ⟨⟨h1, C8_direction_normalised.1 _ _ h1⟩,
    ⟨h2, C8_direction_normalised.2 _ _ _ h2⟩⟩

lemma linspace_length (a b : ℝ) (n : ℕ) : (linspace a b n).length = n := by
  rw [linspace, List.length_map, List.length_range]

lemma ring_sum (k : ℕ) :
    ((List.range k).map (fun a => 6 * (1 + a))).sum = 3 * k * (k + 1) := by
  induction k with
  | zero => simp
  | succ n ih =>
    rw [List.range_succ, List.map_append, List.sum_append, ih]
    simp
    ring

lemma rings_getD (k a : ℕ) (h : a < k) :
    ((List.range' 1 k).map (fun a => 6 * a)).getD a 0 = 6 * (1 + a) := by
  rw [List.getD_eq_getElem _ _ (by simpa using h)]
  simp [List.getElem_range']

lemma flatMap_ring_length (k : ℕ) (f : ℕ → List Ray)
    (hf : ∀ a < k, (f a).length = 6 * (1 + a)) :
    ((List.range k).flatMap f).length = 3 * k * (k + 1) := by
  rw [List.length_flatMap]
  have hcong : (List.range k).map (List.length ∘ f) =
      (List.range k).map (fun a => 6 * (1 + a)) :=
    List.map_congr_left (fun a ha => hf a (List.mem_range.mp ha))
  rw [hcong, ring_sum]

/-- C9: for every positive `k`, `make_bundle k` returns exactly
`6·(1+2+...+k) + 1 = 3k(k+1) + 1` rays: ring `a` (0-based, `a < k`)
contributes `rings[a] = 6·(a+1)` rays and the central axial ray is appended
last. -/
theorem C9_bundle_size (k : ℕ) (_hk : 0 < k) :
    (make_bundle k).length = 3 * k * (k + 1) + 1 := by
  simp only [make_bundle]
  rw [List.length_append]
  have hsr : ((linspace 0 (k : ℝ) (k + 1)).drop 1).length = k := by
    simp [linspace_length]
  rw [hsr]
  rw [flatMap_ring_length k _ (fun a ha => by
    rw [List.length_map, linspace_length, rings_getD k a ha])]
  simp

/-- C9 witness: `make_bundle 5` has exactly `91` rays. -/
theorem C9_bundle_size_witness : 0 < 5 ∧ (make_bundle 5).length = 91 := by
  refine ⟨by norm_num, ?_⟩
  rw [C9_bundle_size 5 (by norm_num)]

/-- C1: the claim requires that for `n1 > n2` an incidence angle strictly
above the critical angle `asin(n2/n1)` makes `snell` return the TIR signal.
The code tests `sinθᵢ > n1/n2` — the inverted ratio, greater than 1 whenever
`n1 > n2` — so the test never fires; instead `arcsin` is called on
`sinθᵢ·n1/n2 > 1` and a NaN direction is returned.  Concretely: unit
incident direction `(4/5, 0, 3/5)` against unit normal `(0, 0, 1)` with
`n1 = 2 > n2 = 1` has `sinθᵢ = 4/5` above the critical sine `n2/n1 = 1/2`,
yet `snell` returns the NaN direction, not the no-refraction signal. -/
theorem C1_critical_angle_not_tir :
    norm3 ((4/5 : ℝ), 0, 3/5) = 1 ∧
    norm3 ((0 : ℝ), 0, 1) = 1 ∧
    ((2 : ℝ) > 1) ∧
    Real.sqrt (1 - dot3 ((4/5 : ℝ), 0, 3/5) ((0 : ℝ), 0, 1) ^ 2) > 1 / 2 ∧
    (SphericalRefraction.mk 0 1 2 1 1).snell
        (some ((4/5 : ℝ), 0, 3/5)) (some ((0 : ℝ), 0, 1)) = SnellResult.nan := by
  have hd : dot3 ((4/5 : ℝ), 0, 3/5) ((0 : ℝ), 0, 1) = 3/5 := by norm_num [dot3]
  have hs : Real.sqrt (1 - (3/5 : ℝ) ^ 2) = 4/5 := by
    rw [show (1 : ℝ) - (3/5) ^ 2 = 16/25 by norm_num]
    exact sqrt_eq_of_sq (by norm_num) (by norm_num)
  refine ⟨norm3_eq (by norm_num) (by unfold sumsq; norm_num), norm3_001,
    by norm_num, ?_, ?_⟩
  · rw [hd, hs]; norm_num
  · rw [SphericalRefraction.snell, snellCore_eval]
    simp only [hd, hs]
    norm_num
    intro habs
    have habs' : (8/5 : ℝ) ≤ 1 := by rwa [abs_of_pos (by norm_num)] at habs
    norm_num at habs'

/-- C6 counterexample: `SphericalRefraction.propagate_ray` consults no
terminated guard: a terminated on-axis ray fed to a concrete element
(`z0 = 10`, `curvature = 1/10`, `n1 = n2 = 1`, aperture 10) has its vertex
history extended — the claim that every element variant leaves terminated
rays unchanged is false for `SphericalRefraction`. -/
theorem C6_terminated_ray_counterexample :
    ((Ray.ofPointDir ((0 : ℝ), 0, 0) ((0 : ℝ), 0, 1)).terminate).terminated = true ∧
    ((SphericalRefraction.mk 10 (1/10) 1 1 10).propagate_ray
        ((Ray.ofPointDir (0, 0, 0) (0, 0, 1)).terminate)).1.allpos ≠
      ((Ray.ofPointDir ((0 : ℝ), 0, 0) ((0 : ℝ), 0, 1)).terminate).allpos := by
  have hr := ofPointDir_eval (p := ((0 : ℝ), 0, 0)) norm3_001
  have hrt : (Ray.ofPointDir ((0 : ℝ), 0, 0) ((0 : ℝ), 0, 1)).terminate =
      Ray.mk (some ((0 : ℝ), 0, 0)) (some ((0 : ℝ), 0, 1)) [some ((0 : ℝ), 0, 0)] true := by
    rw [hr]; rfl
  have hp : ((Ray.ofPointDir ((0 : ℝ), 0, 0) ((0 : ℝ), 0, 1)).terminate).p =
      some ((0 : ℝ), 0, 0) := by rw [hrt]; rfl
  have hk : ((Ray.ofPointDir ((0 : ℝ), 0, 0) ((0 : ℝ), 0, 1)).terminate).k =
      some ((0 : ℝ), 0, 1) := by rw [hrt]; rfl
  have hcen : (SphericalRefraction.mk 10 (1/10) 1 1 10).centre = ((0 : ℝ), 0, 20) := by
    rw [SphericalRefraction.centre, if_neg (by norm_num)]; norm_num
  have hi : (SphericalRefraction.mk 10 (1/10) 1 1 10).intercept
      ((Ray.ofPointDir (0, 0, 0) (0, 0, 1)).terminate) = some ((0 : ℝ), 0, 10) := by
    rw [intercept_eq_claim_shape _ _ (by norm_num), intercept_claim_eval _ hp hk, hcen]
    simp only [sub3, dot3, sumsq, smul3, add3]
    norm_num
    rw [show Real.sqrt 100 = 10 from sqrt_eq_of_sq (by norm_num) (by norm_num)]
    norm_num
  have hsub : sub3 ((0 : ℝ), 0, 20) ((0 : ℝ), 0, 10) = ((0 : ℝ), 0, 10) := by
    simp [sub3]; norm_num
  have hnormv : normalise_vector ((0 : ℝ), 0, 10) = some ((0 : ℝ), 0, 1) := by
    have h10 : norm3 ((0 : ℝ), 0, 10) = 10 := norm3_eq (by norm_num) (by unfold sumsq; norm_num)
    rw [normalise_vector, h10, if_neg (by norm_num)]
    simp [smul3]
  have hzero : norm3 ((0 : ℝ), 0, 0) = 0 := norm3_eq le_rfl (by unfold sumsq; norm_num)
  have hsn : (SphericalRefraction.mk 10 (1/10) 1 1 10).snell
      (some ((0 : ℝ), 0, 1)) (some ((0 : ℝ), 0, 1)) = SnellResult.refr ((0 : ℝ), 0, 1) := by
    rw [SphericalRefraction.snell, snellCore_eval]
    have hd : dot3 ((0 : ℝ), 0, 1) ((0 : ℝ), 0, 1) = 1 := by norm_num [dot3]
    have hc : cross3 ((0 : ℝ), 0, 1) ((0 : ℝ), 0, 1) = ((0 : ℝ), 0, 0) := by
      simp [cross3]
    simp only [hd, hc, hzero]
    rw [show ((1 : ℝ) - 1 ^ 2) = 0 by norm_num, Real.sqrt_zero]
    norm_num
    simp [Real.arcsin_zero, rotation_matrix, identity_matrix, cross_prod_matrix,
      outer3, madd, msmul, matVec, dot3, cross3, add3, smul3]
  have hsn' : (SphericalRefraction.mk 10 (1/10) 1 1 10).snell
      ((Ray.ofPointDir ((0 : ℝ), 0, 0) ((0 : ℝ), 0, 1)).terminate).k
      (normalise_vector
        (sub3 (SphericalRefraction.mk 10 (1/10) 1 1 10).centre ((0 : ℝ), 0, 10))) =
      SnellResult.refr ((0 : ℝ), 0, 1) := by
    rw [hk, hcen, hsub, hnormv]
    exact hsn
  simp only [SphericalRefraction.propagate_ray, hi, hsn', Ray.append, Ray.vertices]
  refine ⟨by rw [hrt], ?_⟩
  intro habs
  have hlen := congrArg List.length habs
  simp at hlen

/-- C6 (amended): only `OutputPlane.propagate_ray` guards on the terminated
flag — it returns every terminated ray unchanged; `SphericalRefraction.propagate_ray`
performs no such check (see the counterexample, where it mutates a terminated
ray with a valid intercept). -/
theorem C6_output_plane_skips_terminated (o : OutputPlane) (r : Ray)
    (h : r.terminated = true) : o.propagate_ray r = r := by
  simp [OutputPlane.propagate_ray, Ray.is_terminated, h]

/-- C6 (amended) witness: a concrete terminated ray passes an `OutputPlane`
at `z0 = 5` unchanged. -/
theorem C6_output_plane_skips_terminated_witness :
    ((Ray.ofPointDir ((0 : ℝ), 0, 0) ((0 : ℝ), 0, 1)).terminate).terminated = true ∧
    (OutputPlane.mk 5).propagate_ray ((Ray.ofPointDir (0, 0, 0) (0, 0, 1)).terminate) =
      (Ray.ofPointDir ((0 : ℝ), 0, 0) ((0 : ℝ), 0, 1)).terminate :=
  ⟨rfl, C6_output_plane_skips_terminated _ _ rfl⟩

lemma plane_intercept_eval (pl : PlaneRefraction) {r : Ray} {p k : Vec3}
    (hp : r.p = some p) (hk : r.k = some k) (hkz : k.2.2 ≠ 0)
    (hlat : (add3 p (smul3 ((pl.z0 - p.2.2) / k.2.2) k)).1 ^ 2 +
      (add3 p (smul3 ((pl.z0 - p.2.2) / k.2.2) k)).2.1 ^ 2 ≤ pl.rad ^ 2) :
    pl.intercept r = some (add3 p (smul3 ((pl.z0 - p.2.2) / k.2.2) k)) := by
  rw [PlaneRefraction.intercept, hp, hk]
  simp only [npDiv_ne _ hkz]
  rw [if_pos hlat]

set_option maxHeartbeats 2000000 in
lemma snell_flat_equal_indices (n : ℝ) (hn : n ≠ 0) (a b c e : ℝ)
    (he : e = 1 ∨ e = -1) (hu : a ^ 2 + b ^ 2 + c ^ 2 = 1) (hce : 0 < c * e) :
    snellCore n n (some (a, b, c)) (some ((0 : ℝ), 0, e)) = SnellResult.refr (a, b, c) := by
  have he2 : e ^ 2 = 1 := by rcases he with rfl | rfl <;> norm_num
  have hd : dot3 (a, b, c) ((0 : ℝ), 0, e) = c * e := by simp [dot3]
  have hcross : cross3 (a, b, c) ((0 : ℝ), 0, e) = (b * e, -(a * e), 0) := by
    simp [cross3]
  have harg : 1 - (c * e) ^ 2 = a ^ 2 + b ^ 2 := by
    linear_combination -hu - c ^ 2 * he2
  have hsumsq : sumsq (b * e, -(a * e), 0) = a ^ 2 + b ^ 2 := by
    unfold sumsq
    linear_combination (a ^ 2 + b ^ 2) * he2
  have hnormc : norm3 (b * e, -(a * e), 0) = Real.sqrt (a ^ 2 + b ^ 2) := by
    rw [norm3, hsumsq]
  have hab : 0 ≤ a ^ 2 + b ^ 2 := by positivity
  have hab1 : a ^ 2 + b ^ 2 ≤ 1 := by nlinarith [sq_nonneg c]
  have hsle : Real.sqrt (a ^ 2 + b ^ 2) ≤ 1 := by
    rw [show (1 : ℝ) = Real.sqrt 1 from Real.sqrt_one.symm]
    exact Real.sqrt_le_sqrt hab1
  have hsnn : 0 ≤ Real.sqrt (a ^ 2 + b ^ 2) := Real.sqrt_nonneg _
  have hs0sq : Real.sqrt (a ^ 2 + b ^ 2) ^ 2 = a ^ 2 + b ^ 2 := Real.sq_sqrt hab
  have hsr : Real.sqrt (a ^ 2 + b ^ 2) * n / n = Real.sqrt (a ^ 2 + b ^ 2) := by
    field_simp
  have hnn1 : n / n = 1 := div_self hn
  have habsc : |c| = c * e := by
    rcases he with rfl | rfl
    · rw [mul_one] at hce ⊢; exact abs_of_pos hce
    · have hcneg : c < 0 := by nlinarith
      rw [abs_of_neg hcneg]; ring
  have hcos : Real.cos (-Real.arcsin (Real.sqrt (a ^ 2 + b ^ 2))) = c * e := by
    rw [Real.cos_neg, Real.cos_arcsin, hs0sq,
      show (1 : ℝ) - (a ^ 2 + b ^ 2) = c ^ 2 by linarith,
      Real.sqrt_sq_eq_abs, habsc]
  have hsin : Real.sin (-Real.arcsin (Real.sqrt (a ^ 2 + b ^ 2))) =
      -Real.sqrt (a ^ 2 + b ^ 2) := by
    rw [Real.sin_neg, Real.sin_arcsin (by linarith) hsle]
  rw [snellCore_eval]
  simp only [hd, hcross, harg, hnormc, hnn1, hsr]
  rw [if_neg (not_lt.mpr hab), if_neg (not_lt.mpr hsle),
    if_neg (not_lt.mpr (by rwa [abs_of_nonneg hsnn]))]
  by_cases hz : Real.sqrt (a ^ 2 + b ^ 2) = 0
  · have hab0 : a ^ 2 + b ^ 2 = 0 := by
      rw [← hs0sq, hz]; ring
    have ha : a = 0 := by nlinarith [sq_nonneg a, sq_nonneg b]
    have hb : b = 0 := by nlinarith [sq_nonneg a, sq_nonneg b]
    have hc1 : c ^ 2 = 1 := by nlinarith
    have hcee : c = e := by
      rcases he with rfl | rfl
      · nlinarith
      · nlinarith
    rw [if_pos hz, hz, Real.arcsin_zero, neg_zero]
    subst ha hb hcee
    simp [rotation_matrix, identity_matrix, cross_prod_matrix, outer3, madd, msmul,
      matVec, dot3, cross3, add3, smul3]
  · rw [if_neg hz]
    simp only [rotation_matrix, identity_matrix, cross_prod_matrix, outer3, madd,
      msmul, matVec, dot3, cross3, add3, smul3, hcos, hsin]
    congr 1
    refine Prod.ext ?_ (Prod.ext ?_ ?_)
    · field_simp
      linear_combination a * he2
    · field_simp
      linear_combination b * he2
    · field_simp
      linear_combination c * he2

/-- C3: (spec-modelled, `PlaneRefraction` is absent from the sources) the
`PlaneRefraction` intercept solves `(z0 − position_z)/direction_z = L`,
returning `position + L·direction` whenever the lateral aperture test
passes; and with `n1 = n2` (> 0) `propagate_ray` leaves the ray's direction
unchanged for any non-degenerate incidence (`direction_z ≠ 0`, unit
direction). -/
theorem C3_plane_refraction_identity (pl : PlaneRefraction) (r : Ray) (p k : Vec3)
    (hp : r.pos = some p) (hk : r.dir = some k)
    (hkz : k.2.2 ≠ 0) (hu : norm3 k = 1)
    (hlat : (add3 p (smul3 ((pl.z0 - p.2.2) / k.2.2) k)).1 ^ 2 +
      (add3 p (smul3 ((pl.z0 - p.2.2) / k.2.2) k)).2.1 ^ 2 ≤ pl.rad ^ 2)
    (hn : pl.n1 = pl.n2) (hn2 : 0 < pl.n2) :
    pl.intercept r = some (add3 p (smul3 ((pl.z0 - p.2.2) / k.2.2) k)) ∧
    (pl.propagate_ray r).1.dir = some k := by
  have hp' : r.p = some p := hp
  have hk' : r.k = some k := hk
  have hint := plane_intercept_eval pl hp' hk' hkz hlat
  have hsumk : k.1 ^ 2 + k.2.1 ^ 2 + k.2.2 ^ 2 = 1 := by
    have hs := sq_norm3 k
    rw [hu] at hs
    unfold sumsq at hs
    linarith
  have hnne : pl.n2 ≠ 0 := ne_of_gt hn2
  have hsn : snellCore pl.n1 pl.n2 r.k (pl.surfaceNormal r) = SnellResult.refr k := by
    by_cases hpos : 0 ≤ k.2.2
    · have hkpos : 0 < k.2.2 := lt_of_le_of_ne hpos (Ne.symm hkz)
      have hnorm : pl.surfaceNormal r = some ((0 : ℝ), 0, 1) := by
        rw [PlaneRefraction.surfaceNormal, hk']
        simp only [if_pos hpos]
      rw [hk', hnorm, hn]
      exact snell_flat_equal_indices pl.n2 hnne k.1 k.2.1 k.2.2 1 (Or.inl rfl) hsumk
        (by rwa [mul_one])
    · have hkneg : k.2.2 < 0 := not_le.mp hpos
      have hnorm : pl.surfaceNormal r = some ((0 : ℝ), 0, -1) := by
        rw [PlaneRefraction.surfaceNormal, hk']
        simp only [if_neg hpos]
      rw [hk', hnorm, hn]
      exact snell_flat_equal_indices pl.n2 hnne k.1 k.2.1 k.2.2 (-1) (Or.inr rfl) hsumk
        (by nlinarith)
  refine ⟨hint, ?_⟩
  simp only [PlaneRefraction.propagate_ray, hint, hsn, Ray.append, Option.some_bind,
    normalise_vector_of_unit hu]

/-- C3 witness: a flat interface at `z0 = 10` with `n1 = n2 = 3/2` and
aperture 40 moves the axial ray from the origin to `(0, 0, 10)` and leaves
its direction `(0, 0, 1)` unchanged. -/
theorem C3_plane_refraction_identity_witness :
    ((((0 : ℝ), 0, 1) : Vec3).2.2 ≠ 0 ∧
     norm3 ((0 : ℝ), 0, 1) = 1 ∧
     (PlaneRefraction.mk 10 (3/2) (3/2) 40).n1 = (PlaneRefraction.mk 10 (3/2) (3/2) 40).n2 ∧
     (0 : ℝ) < (PlaneRefraction.mk 10 (3/2) (3/2) 40).n2) ∧
    (PlaneRefraction.mk 10 (3/2) (3/2) 40).intercept
        (Ray.ofPointDir (0, 0, 0) (0, 0, 1)) =
      some (add3 ((0 : ℝ), 0, 0)
        (smul3 (((PlaneRefraction.mk 10 (3/2) (3/2) 40).z0 - (((0 : ℝ), 0, 0) : Vec3).2.2) /
          ((((0 : ℝ), 0, 1) : Vec3).2.2)) ((0 : ℝ), 0, 1))) ∧
    ((PlaneRefraction.mk 10 (3/2) (3/2) 40).propagate_ray
        (Ray.ofPointDir (0, 0, 0) (0, 0, 1))).1.dir = some ((0 : ℝ), 0, 1) := by
  have hr := ofPointDir_eval (p := ((0 : ℝ), 0, 0)) norm3_001
  have hp : (Ray.ofPointDir ((0 : ℝ), 0, 0) ((0 : ℝ), 0, 1)).pos = some ((0 : ℝ), 0, 0) := by
    rw [hr]
  have hk : (Ray.ofPointDir ((0 : ℝ), 0, 0) ((0 : ℝ), 0, 1)).dir = some ((0 : ℝ), 0, 1) := by
    rw [hr]
  have hmain := C3_plane_refraction_identity (PlaneRefraction.mk 10 (3/2) (3/2) 40) _ _ _
    hp hk (by norm_num) norm3_001 (by norm_num [add3, smul3]) rfl (by norm_num)
  exact ⟨⟨by norm_num, norm3_001, rfl, by norm_num⟩, hmain.1, hmain.2⟩
